import Mathlib

/-
Verification of the mcinterface-rs wrapper library (src/lib.rs, src/fmt.rs).

The library is glue code over an external host ABI: every public function
forwards its arguments to one or more extern host primitives.  We embed each
function as a pure Lean function computing the list of host calls ("events")
it performs, in order; functions that also return a value to the caller
return it alongside the trace.  The extern `turtle_get` primitive returns a
value chosen by the host, so its embedding takes the host's answer as an
explicit parameter.
-/

namespace Mcinterface

/-- The `Block` enum of src/lib.rs: all block types supported by wasmcraft2. -/
inductive Block
| Air
| Cobblestone
| Granite
| Andesite
| Diorite
| Lapis
| Iron
| Gold
| Diamond
| Redstone
| Emerald
| Dirt
| OakLog
| OakLeaves
deriving DecidableEq, Repr

/-- One invocation of an extern host primitive (the extern block of src/lib.rs),
together with the arguments passed to it. -/
inductive Event
| print (value : Int)
| turtle_x (value : Int)
| turtle_y (value : Int)
| turtle_z (value : Int)
| turtle_fill (block : Block) (x_span y_span z_span : Int)
| turtle_set (block : Block)
| turtle_get
| turtle_copy_region (x_span y_span z_span : Int)
| turtle_paste_region_masked (x_span y_span z_span : Int)
| turtle_copy
| turtle_paste
| mc_sleep
| mc_putc (ch : Int)
deriving DecidableEq, Repr

/-- Two's-complement value of `n mod 2^32` as a signed 32-bit integer:
the meaning of Rust's `as i32` cast applied to an unsigned scalar `n`. -/
def i32ofNat (n : Nat) : Int :=
  if n % 4294967296 < 2147483648 then ((n % 4294967296 : Nat) : Int)
  else ((n % 4294967296 : Nat) : Int) - 4294967296

/-- Extern primitive `turtle_x` (one host call). -/
def turtle_x_prim (value : Int) : List Event := [Event.turtle_x value]

/-- Extern primitive `turtle_y` (one host call). -/
def turtle_y_prim (value : Int) : List Event := [Event.turtle_y value]

/-- Extern primitive `turtle_z` (one host call). -/
def turtle_z_prim (value : Int) : List Event := [Event.turtle_z value]

/-- Extern primitive `turtle_get` (one host call); the block the host answers
with is the explicit parameter `hb`. -/
def turtle_get_prim (hb : Block) : Block × List Event := (hb, [Event.turtle_get])

/-- Extern primitive `mc_sleep` (one host call). -/
def mc_sleep_prim : List Event := [Event.mc_sleep]

/-- Extern primitive `mc_putc` (one host call with an i32 argument). -/
def mc_putc_prim (ch : Int) : List Event := [Event.mc_putc ch]

/-- src/lib.rs `turtle_pos`: calls the extern `turtle_x`, `turtle_y`,
`turtle_z` primitives in that order. -/
def turtle_pos (x y z : Int) : List Event :=
  turtle_x_prim x ++ turtle_y_prim y ++ turtle_z_prim z

/-- src/lib.rs `turtle_get`: forwards to the extern primitive. -/
def turtle_get (hb : Block) : Block × List Event := turtle_get_prim hb

/-- src/lib.rs `turtle_check`: `block == turtle_get()`. -/
def turtle_check (hb : Block) (block : Block) : Bool × List Event :=
  let r := turtle_get_prim hb
  (decide (block = r.1), r.2)

/-- src/lib.rs `mc_sleep`: forwards to the extern primitive. -/
def mc_sleep : List Event := mc_sleep_prim

/-- src/lib.rs `mc_putc`: passes `ch as i32` to the extern primitive. -/
def mc_putc (c : Char) : List Event := mc_putc_prim (i32ofNat c.toNat)

/-- src/lib.rs `print_str`: `for c in s.chars() { mc_putc(c); }`. -/
def print_str : List Char → List Event
| [] => []
| c :: rest => mc_putc c ++ print_str rest

/-- src/lib.rs `println`: the same character loop as `print_str`, followed by
`mc_putc('\n')`. -/
def println (s : List Char) : List Event := print_str s ++ mc_putc '\n'

/-- src/fmt.rs `MciWriteStream`: a unit struct (no fields, no state). -/
structure MciWriteStream where

/-- The `core::fmt::Error` unit struct. -/
structure FmtError where
deriving DecidableEq

/-- `core::fmt::Result` = `Result<(), core::fmt::Error>`. -/
abbrev FmtResult := Except FmtError Unit

/-- src/fmt.rs `Write::write_str` for `MciWriteStream`: calls `print_str`
and returns `Ok(())`.  `&mut self` is embedded as state passing, so the
result is (new state, returned value, trace of host calls). -/
def write_str (self : MciWriteStream) (s : List Char) :
    MciWriteStream × FmtResult × List Event :=
  (self, Except.ok (), print_str s)

/-- src/fmt.rs `Write::write_char` for `MciWriteStream`: calls `mc_putc`
and returns `Ok(())`. -/
def write_char (self : MciWriteStream) (c : Char) :
    MciWriteStream × FmtResult × List Event :=
  (self, Except.ok (), mc_putc c)

/-- The diagnostic string printed by the panic handler of src/lib.rs. -/
def panic_message : List Char := "RUST PANIC - entering infinite loop!".toList

/-- Fuel-bounded trace of the infinite `loop { mc_sleep(); }` in the panic
handler: the host calls observed during the first `fuel` iterations. -/
def panic_loop : Nat → List Event
| 0 => []
| n + 1 => mc_sleep_prim ++ panic_loop n

/-- src/lib.rs panic handler: `println("RUST PANIC - entering infinite loop!")`
then `loop { mc_sleep(); }`, observed for `fuel` loop iterations. -/
def panic_trace (fuel : Nat) : List Event := println panic_message ++ panic_loop fuel

/-- Modelled from the spec: the host-side line buffer (section 6 of the spec;
the host is external to this repository).  The host accumulates each character
passed to `mc_putc` into a line buffer; on receiving the newline code 10 it
flushes the buffer as one line.  The state is (pending buffer, lines flushed
so far); events other than `mc_putc` do not touch the buffer. -/
def host_step : List Int × List (List Int) → Event → List Int × List (List Int)
| (buf, flushed), Event.mc_putc ch =>
    if ch = 10 then ([], flushed ++ [buf]) else (buf ++ [ch], flushed)
| st, _ => st

/-- Run the host line buffer over a trace, starting from an empty buffer. -/
def host_run (evs : List Event) : List Int × List (List Int) :=
  evs.foldl host_step ([], [])

/-- The lines flushed by the host while consuming a trace. -/
def flushes (evs : List Event) : List (List Int) := (host_run evs).2

/-- The i32 code that `mc_putc` passes to the host for the character `c`. -/
def char_code (c : Char) : Int := i32ofNat c.toNat

/-- Every Unicode scalar value is below 0x110000. -/
theorem char_toNat_lt (c : Char) : c.toNat < 1114112 := by
  have h := c.valid
  rcases h with h | h
  · exact Nat.lt_trans h (by norm_num)
  · exact h.2

/-- The `as i32` cast does not wrap on Unicode scalar values. -/
theorem i32ofNat_char (c : Char) : i32ofNat c.toNat = (c.toNat : Int) := by
  have h := char_toNat_lt c
  unfold i32ofNat
  rw [Nat.mod_eq_of_lt (by omega), if_pos (by omega)]

/-- Characters with equal scalar values are equal. -/
theorem char_toNat_inj {c d : Char} (h : c.toNat = d.toNat) : c = d :=
  Char.ext (UInt32.ext h)

/-- `char_code` is just the scalar value. -/
theorem char_code_eq (c : Char) : char_code c = (c.toNat : Int) := i32ofNat_char c

/-- Only the newline character is sent as code 10. -/
theorem char_code_eq_ten {c : Char} (h : char_code c = 10) : c = '\n' := by
  rw [char_code_eq] at h
  exact char_toNat_inj (by exact_mod_cast h)

/-- `print_str` emits exactly one `mc_putc` event per character, in order. -/
theorem print_str_eq_map (s : List Char) :
    print_str s = s.map (fun c => Event.mc_putc (char_code c)) := by
  induction s with
  | nil => rfl
  | cons c rest ih => simp [print_str, mc_putc, mc_putc_prim, char_code, ih]

/-- `println` emits one `mc_putc` event per character, then the newline. -/
theorem println_eq_map (s : List Char) :
    println s = s.map (fun c => Event.mc_putc (char_code c)) ++ [Event.mc_putc 10] := by
  unfold println
  rw [print_str_eq_map]
  rfl

/-- The host consumes a newline-free character stream by appending it to the
pending buffer, flushing nothing. -/
theorem host_foldl_no_newline (s : List Char) (h : '\n' ∉ s)
    (buf : List Int) (fl : List (List Int)) :
    (s.map (fun c => Event.mc_putc (char_code c))).foldl host_step (buf, fl)
      = (buf ++ s.map char_code, fl) := by
  induction s generalizing buf with
  | nil => simp
  | cons c rest ih =>
    have hc : char_code c ≠ 10 := fun hc => h (by simp [char_code_eq_ten hc])
    have hrest : '\n' ∉ rest := fun hm => h (List.mem_cons_of_mem _ hm)
    simp only [List.map_cons, List.foldl_cons, host_step, if_neg hc]
    rw [ih hrest]
    simp

/-- Claim C1: for every string `s`, the sink's bulk write (`write_str` on
`MciWriteStream`, i.e. `print_str`) invokes the external one-character
primitive exactly once per character of `s`, in the order the characters
occur in `s`, with no character dropped, merged, reordered or buffered, and
with a newline forwarded exactly like any other character: the trace is the
pointwise image of `s` under a single uniform per-character emission. -/
theorem write_str_forwards_each_char_in_order :
    ∀ (st : MciWriteStream) (s : List Char),
      (write_str st s).2.2 = s.map (fun c => Event.mc_putc (char_code c)) ∧
      print_str s = s.map (fun c => Event.mc_putc (char_code c)) := by
  intro st s
  exact ⟨print_str_eq_map s, print_str_eq_map s⟩

/-- Claim C2: `write_str` and `write_char` on `MciWriteStream` return `Ok(())`
on every input; no `Err` value is ever produced. -/
theorem write_ops_always_ok :
    ∀ (st : MciWriteStream) (s : List Char) (c : Char),
      (write_str st s).2.1 = Except.ok () ∧ (write_char st c).2.1 = Except.ok () := by
  intro st s c
  exact ⟨rfl, rfl⟩

/-- Claim C3: the bulk helper and the single-character helper are
observationally equivalent: for every string `s`, the host-call trace of
`write_str s` is exactly the concatenation of the traces of `write_char c`
over the characters `c` of `s`, in order. -/
theorem write_str_equiv_write_char_seq :
    ∀ (st : MciWriteStream) (s : List Char),
      (write_str st s).2.2 = (s.map (fun c => (write_char st c).2.2)).flatten := by
  intro st s
  induction s with
  | nil => rfl
  | cons c rest ih =>
    simp only [write_str, print_str, List.map_cons, List.flatten_cons]
    simp only [write_str] at ih
    rw [ih]
    rfl

/-- Claim C4: writing is a concatenation homomorphism: the trace of
`print_str (a ++ b)` equals the trace of `print_str a` followed by the trace
of `print_str b`, with nothing inserted in between. -/
theorem print_str_append_hom :
    ∀ (a b : List Char), print_str (a ++ b) = print_str a ++ print_str b := by
  intro a b
  induction a with
  | nil => rfl
  | cons c rest ih => simp [print_str, ih]

/-- Claim C5: `println s` emits exactly one `mc_putc` event per character of
`s` in order, followed by exactly one newline event (code 10) and nothing
else; consequently, when `s` contains no newline, running the host line
buffer over the trace produces exactly one flush holding precisely the
character codes of `s`, leaving the buffer empty. -/
theorem println_trace_and_single_flush (s : List Char) :
    println s = s.map (fun c => Event.mc_putc (char_code c)) ++ [Event.mc_putc 10] ∧
    ('\n' ∉ s →
      flushes (println s) = [s.map char_code] ∧ (host_run (println s)).1 = []) := by
  have htr := println_eq_map s
  refine ⟨htr, fun hnl => ?_⟩
  have hrun : host_run (println s) = ([], [s.map char_code]) := by
    unfold host_run
    rw [htr, List.foldl_append, host_foldl_no_newline s hnl [] []]
    simp [host_step]
  exact ⟨by simp [flushes, hrun], by simp [hrun]⟩

/-- Witness for C5 at the concrete input "hi". -/
theorem println_trace_and_single_flush_witness :
    ('\n' ∉ ("hi".toList)) ∧
      flushes (println ("hi".toList)) = [("hi".toList).map char_code] :=
  ⟨by decide, ((println_trace_and_single_flush ("hi".toList)).2 (by decide)).1⟩

/-- Claim C6: the panic handler first emits the fixed diagnostic line (the
characters of "RUST PANIC - entering infinite loop!" followed by one newline)
exactly once through the character-output primitive, and afterwards, for any
bounded number of loop iterations, every observed host call is `mc_sleep`;
one more iteration only appends one more `mc_sleep`, so control never comes
back with any further character output. -/
theorem panic_emits_diagnostic_then_sleeps (fuel : Nat) :
    panic_trace fuel
      = (panic_message.map (fun c => Event.mc_putc (char_code c))
          ++ [Event.mc_putc 10]) ++ List.replicate fuel Event.mc_sleep ∧
    panic_loop fuel = List.replicate fuel Event.mc_sleep ∧
    panic_trace (fuel + 1) = panic_trace fuel ++ [Event.mc_sleep] := by
  have hloop : ∀ n, panic_loop n = List.replicate n Event.mc_sleep := by
    intro n
    induction n with
    | zero => rfl
    | succ m ih => simp [panic_loop, mc_sleep_prim, ih, List.replicate_succ]
  refine ⟨?_, hloop fuel, ?_⟩
  · unfold panic_trace
    rw [hloop, println_eq_map]
  · unfold panic_trace
    rw [hloop, hloop, List.replicate_succ']
    simp

/-- Claim C7: the sink is stateless and deterministic: all `MciWriteStream`
values are equal (the struct has no fields), the result of `write_str` and
`write_char` does not depend on which stream value is used, the stream value
is returned unchanged, and the trace of a call made after a previous call
equals the trace of that call made on a fresh stream. -/
theorem sink_stateless_deterministic :
    (∀ a b : MciWriteStream, a = b) ∧
    (∀ (st st' : MciWriteStream) (s : List Char), write_str st s = write_str st' s) ∧
    (∀ (st st' : MciWriteStream) (c : Char), write_char st c = write_char st' c) ∧
    (∀ (st : MciWriteStream) (s : List Char), (write_str st s).1 = st) ∧
    (∀ (st : MciWriteStream) (a b : List Char),
      (write_str (write_str st a).1 b).2.2 = (write_str MciWriteStream.mk b).2.2) := by
  refine ⟨fun a b => by cases a; cases b; rfl, ?_, ?_, ?_, ?_⟩
  · intro st st' s
    cases st; cases st'; rfl
  · intro st st' c
    cases st; cases st'; rfl
  · intro st s
    rfl
  · intro st a b
    rfl

/-- Claim C8: `turtle_pos x y z` performs exactly the host calls
`turtle_x(x)`, `turtle_y(y)`, `turtle_z(z)`, once each, in that order, and
nothing else. -/
theorem turtle_pos_trace (x y z : Int) :
    turtle_pos x y z = [Event.turtle_x x, Event.turtle_y y, Event.turtle_z z] := rfl

/-- Claim C9: `turtle_check b` performs exactly one host `turtle_get` query
(and no other host call), and returns `true` exactly when the block the host
answers with equals `b`. -/
theorem turtle_check_single_query (hb block : Block) :
    (turtle_check hb block).2 = [Event.turtle_get] ∧
    ((turtle_check hb block).1 = true ↔ block = hb) := by
  refine ⟨rfl, ?_⟩
  simp [turtle_check, turtle_get_prim]

/-- Claim C10: `mc_putc c` passes exactly the Unicode scalar value of `c`
(cast to i32 without wrapping, since scalar values fit in 31 bits) to the
host primitive, and `print_str` performs exactly one host call per code
point of its input. -/
theorem mc_putc_scalar_value :
    (∀ c : Char, mc_putc c = [Event.mc_putc ((c.toNat : Int))]) ∧
    (∀ s : List Char, (print_str s).length = s.length) := by
  constructor
  · intro c
    simp [mc_putc, mc_putc_prim, i32ofNat_char]
  · intro s
    rw [print_str_eq_map]
    simp

end Mcinterface
